import Mathlib

/-!
Verification of the PaintDots convention scanner (`tools/copilot_scan.py`).

The per-file rule engine is embedded shallowly: file text is a `List Char`,
each compiled pattern of the script becomes an explicit matcher, and each
rule block of the scan loop becomes a Lean function producing structured
findings.  Where the script formats an f-string, the embedding produces a
`Finding` constructor carrying exactly the interpolated data (tag, path,
line, column, name); the constant message text is determined by the
constructor.
-/

namespace PaintDots

/-- Shorthand: the character list of a string literal. -/
def str (s : String) : List Char := s.toList

/-- Python's `\s` class (ASCII range, as used by the scanned files). -/
def isPySpace (c : Char) : Bool :=
  c = ' ' || c = '\t' || c = '\n' || c = '\r' || c = '\x0b' || c = '\x0c'

/-- Python's `\w` class (ASCII range): letters, digits, underscore. -/
def isWordChar (c : Char) : Bool :=
  c.isAlpha || c.isDigit || c = '_'

/-- Line terminators recognised by Python `str.splitlines`. -/
def isLineTerm (c : Char) : Bool :=
  c = '\n' || c = '\r' || c = '\x0b' || c = '\x0c' ||
  c = Char.ofNat 0x1c || c = Char.ofNat 0x1d || c = Char.ofNat 0x1e ||
  c = Char.ofNat 0x85 || c = Char.ofNat 0x2028 || c = Char.ofNat 0x2029

/-- `startsWithL pre l` : does `l` start with `pre`? -/
def startsWithL : List Char → List Char → Bool
  | [], _ => true
  | _ :: _, [] => false
  | c :: ps, d :: ds => d = c && startsWithL ps ds

/-- First index of substring `needle` in `hay` (Python `str.find`, `none` for -1). -/
def findSub (needle : List Char) : List Char → Nat → Option Nat
  | hay, i =>
    if startsWithL needle hay then some i
    else
      match hay with
      | [] => none
      | _ :: t => findSub needle t (i + 1)

/-- Python's substring test `needle in hay`. -/
def containsSub (needle hay : List Char) : Bool :=
  (findSub needle hay 0).isSome

/-- Python `str.lstrip()`. -/
def lstrip (l : List Char) : List Char := l.dropWhile isPySpace

/-- Python `str.strip()`. -/
def strip (l : List Char) : List Char :=
  ((l.dropWhile isPySpace).reverse.dropWhile isPySpace).reverse

/-- Python `str.lower()` restricted to ASCII letters. -/
def asciiLower (l : List Char) : List Char :=
  l.map (fun c => if 'A' ≤ c && c ≤ 'Z' then Char.ofNat (c.toNat + 32) else c)

/-- Python `str.splitlines`, accumulator form.  `\r\n` counts as a single
terminator; a trailing unterminated segment is its own line; `""` gives `[]`. -/
def splitlinesAux : List Char → List Char → List (List Char)
  | [], acc => if acc.isEmpty then [] else [acc.reverse]
  | [c], acc => if isLineTerm c then [acc.reverse] else [(c :: acc).reverse]
  | c :: d :: cs, acc =>
    if c = '\r' && d = '\n' then acc.reverse :: splitlinesAux cs []
    else if isLineTerm c then acc.reverse :: splitlinesAux (d :: cs) []
    else splitlinesAux (d :: cs) (c :: acc)

/-- `text.splitlines()`. -/
def splitlines (text : List Char) : List (List Char) := splitlinesAux text []

/-- `text.count('\n', 0, idx)`: newline count before offset `idx`. -/
def countNL (text : List Char) (idx : Nat) : Nat :=
  ((text.take idx).filter (fun c => c = '\n')).length

/-- Index of the last `'\n'` strictly before `idx` (Python `text.rfind('\n', 0, idx)`). -/
def lastNLIdx (l : List Char) : Option Nat :=
  (l.foldl (fun (st : Option Nat × Nat) c =>
    (if c = '\n' then some st.2 else st.1, st.2 + 1)) (none, 0)).1

/-- `col = idx - text.rfind('\n', 0, idx)` (rfind yields -1 when absent). -/
def colOf (text : List Char) (idx : Nat) : Nat :=
  match lastNLIdx (text.take idx) with
  | none => idx + 1
  | some p => idx - p

/-- The scanner's inline suppression markers.  The script's source holds the
ASCII token plus two mojibake glyph sequences (the bytes of two emoji decoded
twice), reproduced here codepoint for codepoint. -/
def ignoreMarkers : List (List Char) :=
  [str "copilot-ignore",
   [Char.ofNat 0xf0, Char.ofNat 0x178, Char.ofNat 0x161, Char.ofNat 0xab],
   [Char.ofNat 0xf0, Char.ofNat 0x178, Char.ofNat 0x203a, Char.ofNat 0x2018]]

/-- `any(tok in line for tok in ignore_markers)`. -/
def hasMarker (line : List Char) : Bool :=
  ignoreMarkers.any (fun tok => containsSub tok line)

/-- The resolved configuration record (built-in defaults merged with the
optional JSON override); only the fields the rule engine reads. -/
structure Cfg where
  CheckNativeArray : Bool
  CheckNulls : Bool
  CheckSealedClasses : Bool
  CheckBurstRef : Bool
  CheckEntityNull : Bool
  CheckStoryComments : Bool
  ExemptEditorNullChecks : Bool
  deriving DecidableEq

/-- The script's built-in defaults. -/
def defaultCfg : Cfg :=
  { CheckNativeArray := true
    CheckNulls := true
    CheckSealedClasses := true
    CheckBurstRef := true
    CheckEntityNull := true
    CheckStoryComments := true
    ExemptEditorNullChecks := true }

/-- One appended result line, in structured form.  Each constructor matches one
`results.append(...)` site of the script; fields are the interpolated values. -/
inductive Finding
  | error (path : List Char)
  | nativeArray (path : List Char) (ln col : Nat)
  | nullF (path : List Char) (ln col : Nat)
  | unsealed (path : List Char) (ln : Nat) (name : List Char)
  | entityNull (path : List Char) (ln : Nat)
  | burstRef (path : List Char) (ln : Nat)
  | storyMissing (path : List Char) (ln col : Nat)
  | storyShort (path : List Char) (ln : Nat)
  deriving DecidableEq, Repr

/-- The 1-based line number carried by a finding (`none` for the synthetic
read-error finding, whose report line has no line number). -/
def Finding.lineOf : Finding → Option Nat
  | .error _ => none
  | .nativeArray _ ln _ => some ln
  | .nullF _ ln _ => some ln
  | .unsealed _ ln _ => some ln
  | .entityNull _ ln => some ln
  | .burstRef _ ln => some ln
  | .storyMissing _ ln _ => some ln
  | .storyShort _ ln => some ln

/-- Is this a too-short story finding? -/
def Finding.isStoryShort : Finding → Bool
  | .storyShort _ _ => true
  | _ => false

/-! ### Regex matchers

Each compiled pattern of the script becomes a matcher
`Option Char → List Char → Option (Nat × α)` : given the character before the
current offset (for `\b` and multiline `^`) and the remaining text, it yields
the length matched and the captured data.  The patterns use no backtracking
that a committed (possessive) reading could miss: whenever an optional keyword
group matches, the following required literal can never match the same text,
because no keyword is a prefix of another or of what follows. -/

/-- `takeLit pat s` consumes the literal `pat` from the front of `s`. -/
def takeLit : List Char → List Char → Option (List Char)
  | [], s => some s
  | _ :: _, [] => none
  | c :: ps, d :: ds => if d = c then takeLit ps ds else none

/-- `\b` holds before a word character iff the previous character is absent or
not a word character. -/
def boundaryBefore (prev : Option Char) : Bool :=
  match prev with
  | none => true
  | some c => !isWordChar c

/-- Multiline `^`: start of text or right after a newline. -/
def atLineStart (prev : Option Char) : Bool :=
  match prev with
  | none => true
  | some c => c = '\n'

/-- Trailing `\b` after a word character: next character absent or non-word. -/
def boundaryAfter : List Char → Bool
  | [] => true
  | c :: _ => !isWordChar c

/-- Pattern `\bNativeArray\s*<`. -/
def matchNativeArray (prev : Option Char) (s : List Char) : Option (Nat × Unit) :=
  if boundaryBefore prev then
    match takeLit (str "NativeArray") s with
    | some r1 =>
      match r1.dropWhile isPySpace with
      | '<' :: r2 => some (s.length - r2.length, ())
      | _ => none
    | none => none
  else none

/-- Third alternative `=\s*null` of the null-literal pattern. -/
def eqNullAlt (s : List Char) : Option (Nat × Unit) :=
  match takeLit (str "=") s with
  | some r1 =>
    match takeLit (str "null") (r1.dropWhile isPySpace) with
    | some r2 => some (s.length - r2.length, ())
    | none => none
  | none => none

/-- Pattern `\bnull\b|==\s*null|=\s*null`, alternatives tried in order. -/
def matchNull (prev : Option Char) (s : List Char) : Option (Nat × Unit) :=
  match (if boundaryBefore prev then
          match takeLit (str "null") s with
          | some r1 => if boundaryAfter r1 then some (s.length - r1.length, ()) else none
          | none => none
        else none) with
  | some r => some r
  | none =>
    match takeLit (str "==") s with
    | some r1 =>
      match takeLit (str "null") (r1.dropWhile isPySpace) with
      | some r2 => some (s.length - r2.length, ())
      | none => eqNullAlt s
    | none => eqNullAlt s

/-- Pattern `\bEntity\.Null\b`. -/
def matchEntityNull (prev : Option Char) (s : List Char) : Option (Nat × Unit) :=
  if boundaryBefore prev then
    match takeLit (str "Entity.Null") s with
    | some r1 => if boundaryAfter r1 then some (s.length - r1.length, ()) else none
    | none => none
  else none

/-- Optional group `(kw\s+)?`: literal keyword followed by at least one space;
either the whole group matches or none of it does. -/
def optKwSp (kw : List Char) (s : List Char) : Bool × List Char :=
  match takeLit kw s with
  | some r =>
    match r with
    | c :: _ => if isPySpace c then (true, r.dropWhile isPySpace) else (false, s)
    | [] => (false, s)
  | none => (false, s)

/-- Optional visibility group `(public|internal|private|protected)?`
(no required trailing space). -/
def optVis (s : List Char) : List Char :=
  match takeLit (str "public") s with
  | some r => r
  | none =>
    match takeLit (str "internal") s with
    | some r => r
    | none =>
      match takeLit (str "private") s with
      | some r => r
      | none =>
        match takeLit (str "protected") s with
        | some r => r
        | none => s

/-- Identifier `[A-Za-z_][A-Za-z0-9_]*` (greedy); yields (name, rest). -/
def takeName : List Char → Option (List Char × List Char)
  | [] => none
  | c :: r =>
    if c.isAlpha || c = '_' then some (c :: r.takeWhile isWordChar, r.dropWhile isWordChar)
    else none

/-- The `Class` pattern
`^\s*(public|internal|private|protected)?\s*(partial\s+)?(sealed\s+)?(static\s+)?(abstract\s+)?class\s+([A-Za-z_][A-Za-z0-9_]*)`
with `re.M`.  Captures (length, sealed?, static?, name). -/
def matchClass (prev : Option Char) (s : List Char) :
    Option (Nat × Bool × Bool × List Char) :=
  if atLineStart prev then
    let s1 := s.dropWhile isPySpace
    let s2 := (optVis s1).dropWhile isPySpace
    let s3 := (optKwSp (str "partial") s2).2
    let sealedRes := optKwSp (str "sealed") s3
    let staticRes := optKwSp (str "static") sealedRes.2
    let s6 := (optKwSp (str "abstract") staticRes.2).2
    match takeLit (str "class") s6 with
    | some r1 =>
      match r1 with
      | c :: _ =>
        if isPySpace c then
          match takeName (r1.dropWhile isPySpace) with
          | some (nm, rest) => some (s.length - rest.length, sealedRes.1, staticRes.1, nm)
          | none => none
        else none
      | [] => none
    | none => none
  else none

/-- The story candidate pattern
`^\s*public\s+(partial\s+)?(struct|class)\s+([A-Za-z_][A-Za-z0-9_]*)([^\n\r]*)`
with `re.M`.  Captures (length, group-4 remainder of the line). -/
def matchStory (prev : Option Char) (s : List Char) : Option (Nat × List Char) :=
  if atLineStart prev then
    let s1 := s.dropWhile isPySpace
    match takeLit (str "public") s1 with
    | some r1 =>
      match r1 with
      | c :: _ =>
        if isPySpace c then
          let s2 := r1.dropWhile isPySpace
          let s3 := (optKwSp (str "partial") s2).2
          let s4 :=
            match takeLit (str "struct") s3 with
            | some r => some r
            | none => takeLit (str "class") s3
          match s4 with
          | some r2 =>
            match r2 with
            | c2 :: _ =>
              if isPySpace c2 then
                match takeName (r2.dropWhile isPySpace) with
                | some (_, rest1) =>
                  let rem := rest1.takeWhile (fun ch => !(ch = '\n' || ch = '\r'))
                  let rest2 := rest1.dropWhile (fun ch => !(ch = '\n' || ch = '\r'))
                  some (s.length - rest2.length, rem)
                | none => none
              else none
            | [] => none
          | none => none
        else none
      | [] => none
    | none => none
  else none

/-- `re.finditer`: scan left to right, non-overlapping; after a match of
length `len` resume at its end.  `fuel` starts at the text length, which
bounds the number of steps since every step advances by at least one. -/
def finditerGo (m : Option Char → List Char → Option (Nat × α)) :
    Nat → Option Char → Nat → List Char → List (Nat × α)
  | 0, _, _, _ => []
  | fuel + 1, prev, pos, rest =>
    match rest with
    | [] => []
    | c :: rest1 =>
      match m prev rest with
      | some (len, a) =>
        let step := max len 1
        (pos, a) :: finditerGo m fuel ((rest.take step).getLast?) (pos + step) (rest.drop step)
      | none => finditerGo m fuel (some c) (pos + 1) rest1

/-- `pattern.finditer(text)` as a list of (start offset, captures). -/
def finditer (m : Option Char → List Char → Option (Nat × α)) (text : List Char) :
    List (Nat × α) :=
  finditerGo m text.length none 0 text

/-! ### Rule checkers (the per-file scan loop body) -/

/-- The NativeArray rule: every match is reported, with no suppression-marker
check (`for m in patterns['NativeArray'].finditer(text)` guarded by
`search`, i.e. by non-emptiness of the match list). -/
def checkNativeArray (cfg : Cfg) (path text : List Char) : List Finding :=
  if cfg.CheckNativeArray && !(finditer matchNativeArray text).isEmpty then
    (finditer matchNativeArray text).map (fun pr =>
      Finding.nativeArray path (countNL text pr.1 + 1) (colOf text pr.1))
  else []

/-- Whole-file editor exemption used by the null rule:
`cfg.get('ExemptEditorNullChecks', True) and ('/Editor/' in ('/' + relPath))`. -/
def exemptEditor (cfg : Cfg) (path : List Char) : Bool :=
  cfg.ExemptEditorNullChecks && containsSub (str "/Editor/") ('/' :: path)

/-- The null-literal rule: skip the whole file when editor-exempt, otherwise
report each match whose containing line (via `splitlines`) has no marker. -/
def checkNulls (cfg : Cfg) (path text : List Char) : List Finding :=
  if cfg.CheckNulls then
    if exemptEditor cfg path then []
    else
      (finditer matchNull text).filterMap (fun pr =>
        let ln := countNL text pr.1 + 1
        if hasMarker ((splitlines text).getD (ln - 1) []) then none
        else some (Finding.nullF path ln (colOf text pr.1)))
  else []

/-- The class-modifier rule: report each `Class` match whose `sealed` and
`static` groups are both absent; no suppression-marker check. -/
def checkSealed (cfg : Cfg) (path text : List Char) : List Finding :=
  if cfg.CheckSealedClasses then
    (finditer matchClass text).filterMap (fun pr =>
      if !pr.2.1 && !pr.2.2.1 then
        some (Finding.unsealed path (countNL text pr.1 + 1) pr.2.2.2)
      else none)
  else []

/-- The Entity.Null rule: report each match whose containing line has no
marker (column fixed at 1 in the report). -/
def checkEntityNull (cfg : Cfg) (path text : List Char) : List Finding :=
  if cfg.CheckEntityNull && !(finditer matchEntityNull text).isEmpty then
    (finditer matchEntityNull text).filterMap (fun pr =>
      let ln := countNL text pr.1 + 1
      if hasMarker ((splitlines text).getD (ln - 1) []) then none
      else some (Finding.entityNull path ln))
  else []

/-- `patterns['Burst'].search(l)`: does the line contain `\[BurstCompile\b`? -/
def lineHasBurstAt : Option Char → List Char → Bool
  | _, [] => false
  | _, c :: rest =>
    (if c = '[' then
      match takeLit (str "BurstCompile") rest with
      | some r => boundaryAfter r
      | none => false
    else false)
    || lineHasBurstAt (some c) rest

/-- `search` over a whole line. -/
def lineHasBurst (l : List Char) : Bool := lineHasBurstAt none l

/-- Does the left-stripped line start with `{` or `[`? -/
def braceStart (l : List Char) : Bool :=
  match lstrip l with
  | c :: _ => c = '{' || c = '['
  | [] => false

/-- Would the loop body `continue` past the brace check on this line
(`'ref '` present together with a marker or the allowed `ref SystemState`)? -/
def burstSkip (l : List Char) : Bool :=
  containsSub (str "ref ") l && (hasMarker l || containsSub (str "ref SystemState") l)

/-- Does this window line emit a `[Burst+ref]` finding? -/
def burstEmits (l : List Char) : Bool :=
  containsSub (str "ref ") l && !hasMarker l && !containsSub (str "ref SystemState") l

/-- The forward window loop `for j in range(i+1, end)`: first component is the
list of `j` values the body runs for, second the 1-based line numbers it
reports.  The `break` on a brace-starting line is only reached when the body
did not `continue` (see `burstSkip`). -/
def burstWinGo (lines : List (List Char)) : Nat → Nat → List Nat × List Nat
  | 0, _ => ([], [])
  | n + 1, j =>
    let l := lines.getD j []
    let emits : List Nat := if burstEmits l then [j + 1] else []
    if !burstSkip l && braceStart l then ([j], emits)
    else
      let r := burstWinGo lines n (j + 1)
      (j :: r.1, emits ++ r.2)

/-- The `j` indices examined by the window opened at trigger line `i` (0-based):
`end = min(len(lines), i + 20)`, iterating from `i + 1`. -/
def burstExamined (lines : List (List Char)) (i : Nat) : List Nat :=
  (burstWinGo lines (min lines.length (i + 20) - (i + 1)) (i + 1)).1

/-- The attribute-proximity rule: for each line matching the Burst attribute
pattern, run the forward window and report its findings. -/
def checkBurstRef (path : List Char) (lines : List (List Char)) : List Finding :=
  (List.range lines.length).foldr (fun i acc =>
    (if lineHasBurst (lines.getD i []) then
      (burstWinGo lines (min lines.length (i + 20) - (i + 1)) (i + 1)).2.map
        (fun ln => Finding.burstRef path ln)
    else []) ++ acc) []

/-- The fixed marker-token list of the story rule. -/
def interestingTokens : List (List Char) :=
  [str "SystemBase", str "ISystem", str "ComponentSystemBase", str "IComponentData",
   str "ISharedComponentData", str "IBufferElementData", str "MonoBehaviour",
   str "Baker", str "Authoring", str "IBaker"]

/-- `any(t in l for t in interesting_tokens)`. -/
def tokenHit (l : List Char) : Bool :=
  interestingTokens.any (fun t => containsSub t l)

/-- The candidate-interest test: token in the captured remainder, or in any
line `k` of `range(ln, min(len(lines), ln - 1 + 3) + 1)` (1-based `lines[k-1]`,
i.e. the declaration line itself and the two lines after it). -/
def storyFound (lines : List (List Char)) (ln : Nat) (rem : List Char) : Bool :=
  tokenHit rem ||
    (List.range' ln (min lines.length (ln + 2) + 1 - ln)).any
      (fun k => tokenHit (lines.getD (k - 1) []))

/-- The backward walk for a story comment, from `prev = ln - 2` down while
`prev >= 0 and ln - prev <= 6`; blank and `[`-starting lines are skipped, a
`//` comment containing `Story:` is accepted, anything else stops the walk.
The fuel argument is `prev + 1`. -/
def storyScanGo (lines : List (List Char)) (ln : Nat) : Nat → Option Nat
  | 0 => none
  | pp + 1 =>
    if ln - pp ≤ 6 then
      let s := lstrip (lines.getD pp [])
      if s.isEmpty then storyScanGo lines ln pp
      else if startsWithL (str "[") s then storyScanGo lines ln pp
      else if startsWithL (str "//") s && containsSub (str "Story:") s then some pp
      else none
    else none

/-- `story_idx` of the script (`none` for -1): the backward scan result. -/
def storyBackwardScan (lines : List (List Char)) (ln : Nat) : Option Nat :=
  storyScanGo lines ln (ln - 1)

/-- Processing of one story candidate match (start offset `idx`, captured
remainder `rem`): interest test, declaration-line marker check, backward scan,
then either the missing-story finding (unless editor-exempt) or the
too-short check on the found comment line. -/
def storyCandidate (cfg : Cfg) (path text : List Char) (idx : Nat) (rem : List Char) :
    List Finding :=
  let lines := splitlines text
  let ln := countNL text idx + 1
  let col := colOf text idx
  if !storyFound lines ln rem then []
  else if hasMarker (lines.getD (ln - 1) []) then []
  else
    match storyBackwardScan lines ln with
    | none =>
      if exemptEditor cfg path then []
      else [Finding.storyMissing path ln col]
    | some p =>
      let txt := strip (lines.getD p [])
      match findSub (str "story:") (asciiLower txt) 0 with
      | some i2 =>
        if (strip (txt.drop (i2 + 6))).length < 20 then [Finding.storyShort path (p + 1)]
        else []
      | none => []

/-- The story-comment rule over a file. -/
def checkStory (cfg : Cfg) (path text : List Char) : List Finding :=
  (finditer matchStory text).foldr (fun pr acc =>
    storyCandidate cfg path text pr.1 pr.2 ++ acc) []

/-- One file's scan: the rule blocks in source order.  As in the script, the
story block is nested inside the `CheckBurstRef` conditional. -/
def scanFile (cfg : Cfg) (path text : List Char) : List Finding :=
  checkNativeArray cfg path text ++
  checkNulls cfg path text ++
  checkSealed cfg path text ++
  checkEntityNull cfg path text ++
  (if cfg.CheckBurstRef then
    checkBurstRef path (splitlines text) ++
    (if cfg.CheckStoryComments then checkStory cfg path text else [])
  else [])

/-- The per-file portion of the walk: a file whose content could not be read
(`none`) contributes exactly one synthetic error finding; the others are
scanned, and results are concatenated in traversal order. -/
def scanFiles (cfg : Cfg) (files : List (List Char × Option (List Char))) :
    List Finding :=
  files.foldr (fun pr acc =>
    (match pr.2 with
     | none => [Finding.error pr.1]
     | some text => scanFile cfg pr.1 text) ++ acc) []

/-! ### Declarative window and candidate descriptions

The following definitions are written from the words of the specification (or
of its amended form) rather than from the code, for comparison against the
extracted behaviour. -/

/-- Inclusive take-until: keep indices up to and including the first whose
line satisfies `p`. -/
def takeThru (lines : List (List Char)) (p : List Char → Bool) : List Nat → List Nat
  | [] => []
  | j :: js => j :: (if p (lines.getD j []) then [] else takeThru lines p js)

/-- Modelled from the spec's words (claim C3): a window of at most 20
subsequent lines (fewer if the file ends sooner), closing early — inclusively
— at the first line that begins with an opening brace or bracket. -/
def c3ClaimWindow (lines : List (List Char)) (i : Nat) : List Nat :=
  takeThru lines braceStart (List.range' (i + 1) (min 20 (lines.length - (i + 1))))

/-- The amended window description: at most 19 subsequent lines, and the close
check is skipped on a line the loop `continue`s past (a `'ref '` line with a
suppression marker or the allowed `ref SystemState` form). -/
def c3AmendedWindow (lines : List (List Char)) (i : Nat) : List Nat :=
  takeThru lines (fun l => !burstSkip l && braceStart l)
    (List.range' (i + 1) (min 19 (lines.length - (i + 1))))

/-- Modelled from the spec's words (claim C6): interesting iff the remainder
of the declaration line contains a marker token, or one of the three lines
immediately following the declaration line does. -/
def specInterestingC6 (lines : List (List Char)) (ln : Nat) (rem : List Char) : Bool :=
  tokenHit rem ||
    (List.range' (ln + 1) (min 3 (lines.length - ln))).any
      (fun k => tokenHit (lines.getD (k - 1) []))

/-- The same backward walk as `storyScanGo`, but returning the first
non-blank, non-attribute line unconditionally (the line the claim C5 calls
"the first non-blank, non-attribute line above"). -/
def storyFirstStopGo (lines : List (List Char)) (ln : Nat) : Nat → Option Nat
  | 0 => none
  | pp + 1 =>
    if ln - pp ≤ 6 then
      let s := lstrip (lines.getD pp [])
      if s.isEmpty then storyFirstStopGo lines ln pp
      else if startsWithL (str "[") s then storyFirstStopGo lines ln pp
      else some pp
    else none

/-- The stop line of the backward walk started from the declaration at 1-based
line `ln`. -/
def storyFirstStop (lines : List (List Char)) (ln : Nat) : Option Nat :=
  storyFirstStopGo lines ln (ln - 1)

/-- The acceptance test the code applies at the stop line: a single-line
comment containing `Story:` — matched case-sensitively. -/
def storyAccept (l : List Char) : Bool :=
  startsWithL (str "//") (lstrip l) && containsSub (str "Story:") (lstrip l)

/-! ### Theorems -/

/-- Claim C7: the class-modifier rule on the four reference declarations:
`public class Foo` yields exactly one finding for `Foo`; `public sealed class
Foo` and `public static class Foo` yield none; `internal abstract class Bar`
yields exactly one finding naming `Bar`. -/
theorem c7_class_rule_cases :
    checkSealed defaultCfg (str "A.cs") (str "public class Foo") =
      [Finding.unsealed (str "A.cs") 1 (str "Foo")] ∧
    checkSealed defaultCfg (str "A.cs") (str "public sealed class Foo") = [] ∧
    checkSealed defaultCfg (str "A.cs") (str "public static class Foo") = [] ∧
    checkSealed defaultCfg (str "A.cs") (str "internal abstract class Bar") =
      [Finding.unsealed (str "A.cs") 1 (str "Bar")] := by
  refine ⟨?_, ?_, ?_, ?_⟩ <;> decide

/-- Claim C2, evaluation at the failing input: with `CheckBurstRef` disabled
and `CheckStoryComments` enabled (its default), a file holding an
undocumented public component type produces no finding at all, because the
story block is nested inside the `CheckBurstRef` conditional; re-enabling
`CheckBurstRef` makes the very same story finding appear. -/
theorem c2_story_dead_when_burst_off :
    scanFile { defaultCfg with CheckBurstRef := false } (str "Assets/Code/Foo.cs")
      (str "public struct Foo : IComponentData") = [] ∧
    scanFile defaultCfg (str "Assets/Code/Foo.cs")
      (str "public struct Foo : IComponentData") =
      [Finding.storyMissing (str "Assets/Code/Foo.cs") 1 1] := by
  exact ⟨by decide, by decide⟩

/-- Claim C1, counterexample: the NativeArray rule and the class-modifier rule
report matches even when the containing line holds the `copilot-ignore`
suppression marker. -/
theorem c1_cex_no_suppression_for_native_array_and_class :
    (checkNativeArray defaultCfg (str "A.cs")
        (str "NativeArray<int> x; // copilot-ignore") =
      [Finding.nativeArray (str "A.cs") 1 1] ∧
     hasMarker ((splitlines (str "NativeArray<int> x; // copilot-ignore")).getD 0 []) =
      true) ∧
    (checkSealed defaultCfg (str "A.cs") (str "public class Foo // copilot-ignore") =
      [Finding.unsealed (str "A.cs") 1 (str "Foo")] ∧
     hasMarker ((splitlines (str "public class Foo // copilot-ignore")).getD 0 []) =
      true) := by
  exact ⟨⟨by decide, by decide⟩, ⟨by decide, by decide⟩⟩

/-- Claim C3, counterexample: (a) with a trigger on line 1 of a 21-line file
and a `ref` on line 21 — the 20th subsequent line — the loop never examines
that line (its window is 19 lines, not 20) and reports nothing; (b) a
brace-starting line that the loop `continue`s past (ref + marker) does not
close the window, so a later `ref` line is still examined and reported. -/
theorem c3_cex_window_is_19_and_close_skippable :
    (burstExamined ((str "[BurstCompile]") ::
        (List.replicate 19 (str "int a;") ++ [str "ref q;"])) 0 ≠
      c3ClaimWindow ((str "[BurstCompile]") ::
        (List.replicate 19 (str "int a;") ++ [str "ref q;"])) 0 ∧
     checkBurstRef (str "A.cs") ((str "[BurstCompile]") ::
        (List.replicate 19 (str "int a;") ++ [str "ref q;"])) = []) ∧
    (burstExamined [str "[BurstCompile]", str "\x7b ref x; // copilot-ignore",
        str "ref y;"] 0 ≠
      c3ClaimWindow [str "[BurstCompile]", str "\x7b ref x; // copilot-ignore",
        str "ref y;"] 0 ∧
     checkBurstRef (str "A.cs") [str "[BurstCompile]",
        str "\x7b ref x; // copilot-ignore", str "ref y;"] =
      [Finding.burstRef (str "A.cs") 3]) := by
  exact ⟨⟨by decide, by decide⟩, ⟨by decide, by decide⟩⟩

/-- Claim C5, counterexample: above the candidate on line 2 sits a single-line
comment whose marker matches only case-insensitively (`// story:`).  The claim
says it is accepted as the documentation line and no missing-documentation
finding is emitted; the code's acceptance test is case-sensitive, the backward
scan fails, and the missing finding is emitted. -/
theorem c5_cex_marker_case_sensitive :
    checkStory defaultCfg (str "Assets/Code/A.cs")
      (str "// story: this documentation text is long enough yes\npublic struct Foo : IComponentData") =
      [Finding.storyMissing (str "Assets/Code/A.cs") 2 1] ∧
    startsWithL (str "//")
      (lstrip ((splitlines (str "// story: this documentation text is long enough yes\npublic struct Foo : IComponentData")).getD 0 [])) = true ∧
    containsSub (str "story:")
      (asciiLower ((splitlines (str "// story: this documentation text is long enough yes\npublic struct Foo : IComponentData")).getD 0 [])) = true ∧
    storyBackwardScan
      (splitlines (str "// story: this documentation text is long enough yes\npublic struct Foo : IComponentData")) 2 = none := by
  exact ⟨by decide, by decide, by decide, by decide⟩

/-- Claim C6, counterexample: the marker token sits only on the third line
after the declaration line; by the claim the candidate is interesting, but the
code's lookahead covers the declaration line and the two lines after it, finds
nothing, and emits no finding. -/
theorem c6_cex_lookahead_is_two_lines :
    specInterestingC6
      (splitlines (str "public struct Foo\n\n    : extra\n IComponentData stuff")) 1
      (str "") = true ∧
    storyFound
      (splitlines (str "public struct Foo\n\n    : extra\n IComponentData stuff")) 1
      (str "") = false ∧
    checkStory defaultCfg (str "Assets/Code/A.cs")
      (str "public struct Foo\n\n    : extra\n IComponentData stuff") = [] := by
  exact ⟨by decide, by decide, by decide⟩

/-- Folding a per-element list producer with append, over any initial value,
splits into the empty-initial fold followed by that value. -/
theorem foldr_append_init {α β : Type} (g : α → List β) (l : List α) (init : List β) :
    l.foldr (fun a acc => g a ++ acc) init =
      l.foldr (fun a acc => g a ++ acc) [] ++ init := by
  induction l with
  | nil => simp
  | cons a t ih => simp [ih]

/-- Membership in an append-accumulating fold is membership in one element's
contribution. -/
theorem mem_foldr_append {α β : Type} (g : α → List β) (l : List α) (b : β) :
    b ∈ l.foldr (fun a acc => g a ++ acc) [] ↔ ∃ a, a ∈ l ∧ b ∈ g a := by
  induction l with
  | nil => simp
  | cons a t ih =>
    simp only [List.foldr_cons, List.mem_append, ih, List.mem_cons]
    constructor
    · rintro (hb | ⟨x, hx, hbx⟩)
      · exact ⟨a, Or.inl rfl, hb⟩
      · exact ⟨x, Or.inr hx, hbx⟩
    · rintro ⟨x, hx | hx, hbx⟩
      · exact Or.inl (hx ▸ hbx)
      · exact Or.inr ⟨x, hx, hbx⟩

/-- Claim C8: an unreadable file contributes exactly one synthetic error
finding, in place, and the remaining files are still scanned. -/
theorem c8_read_error_isolated (cfg : Cfg)
    (before after : List (List Char × Option (List Char))) (p : List Char) :
    scanFiles cfg (before ++ (p, none) :: after) =
      scanFiles cfg before ++ Finding.error p :: scanFiles cfg after := by
  unfold scanFiles
  rw [List.foldr_append, List.foldr_cons, foldr_append_init]
  simp

/-- The examined indices of the window loop form the inclusive take-until of
the iterated range under the reachable close condition. -/
theorem burstWinGo_fst (lines : List (List Char)) :
    ∀ n j, (burstWinGo lines n j).1 =
      takeThru lines (fun l => !burstSkip l && braceStart l) (List.range' j n) := by
  intro n
  induction n with
  | zero => intro j; rfl
  | succ m ih =>
    intro j
    show (burstWinGo lines (m + 1) j).1 =
      takeThru lines _ (j :: List.range' (j + 1) m)
    simp only [burstWinGo, takeThru]
    split
    · rfl
    · simp [ih]

/-- Claim C3 (amended): for every file and every trigger line `i`, the indices
examined by the forward window are exactly: at most 19 subsequent lines (fewer
if the file ends sooner), cut inclusively at the first line that begins with a
brace or bracket and is not skipped by the marker / `ref SystemState`
`continue`. -/
theorem c3_amended_window (lines : List (List Char)) (i : Nat) :
    burstExamined lines i = c3AmendedWindow lines i := by
  unfold burstExamined c3AmendedWindow
  rw [burstWinGo_fst]
  have h : min lines.length (i + 20) - (i + 1) = min 19 (lines.length - (i + 1)) := by
    omega
  rw [h]

/-- Claim C6 (amended): the candidate-interest test holds iff the captured
remainder of the declaration line contains a marker token, or some 1-based
line `k` with `ln ≤ k ≤ min len (ln + 2)` — the declaration line itself or one
of the two lines immediately after it — contains one. -/
theorem c6_amended_interest (lines : List (List Char)) (ln : Nat) (rem : List Char) :
    storyFound lines ln rem = true ↔
      ((∃ t, t ∈ interestingTokens ∧ containsSub t rem = true) ∨
       (∃ k, ln ≤ k ∧ k ≤ min lines.length (ln + 2) ∧
          ∃ t, t ∈ interestingTokens ∧ containsSub t (lines.getD (k - 1) []) = true)) := by
  unfold storyFound tokenHit
  simp only [Bool.or_eq_true, List.any_eq_true, List.mem_range'_1]
  constructor
  · rintro (⟨t, ht, hc⟩ | ⟨k, ⟨hk1, hk2⟩, t, ht, hc⟩)
    · exact Or.inl ⟨t, ht, hc⟩
    · exact Or.inr ⟨k, hk1, by omega, t, ht, hc⟩
  · rintro (⟨t, ht, hc⟩ | ⟨k, hk1, hk2, t, ht, hc⟩)
    · exact Or.inl ⟨t, ht, hc⟩
    · exact Or.inr ⟨k, ⟨hk1, by omega⟩, t, ht, hc⟩

/-- One story candidate under an active editor exemption: identical to the
non-exempt processing with the missing-documentation finding filtered away. -/
theorem storyCandidate_exempt (cfg : Cfg) (path text : List Char) (idx : Nat)
    (rem : List Char) (h1 : cfg.ExemptEditorNullChecks = true)
    (h2 : containsSub (str "/Editor/") ('/' :: path) = true) :
    storyCandidate cfg path text idx rem =
      (storyCandidate { cfg with ExemptEditorNullChecks := false } path text idx rem).filter
        Finding.isStoryShort := by
  have he : exemptEditor cfg path = true := by
    unfold exemptEditor; rw [h1, h2]; rfl
  have he2 : exemptEditor { cfg with ExemptEditorNullChecks := false } path = false := by
    unfold exemptEditor; rfl
  simp only [storyCandidate, he, he2]
  split
  · rfl
  · split
    · rfl
    · split
      · simp [Finding.isStoryShort]
      · split
        · split
          · simp [Finding.isStoryShort]
          · rfl
        · rfl

/-- Claim C4: on an exempt path with the exemption flag set, the story rule's
output equals the non-exempt output with every missing-documentation finding
removed — so a candidate with no documentation at all yields nothing, while a
present-but-too-short comment is still flagged. -/
theorem c4_exempt_missing_only (cfg : Cfg) (path text : List Char)
    (h1 : cfg.ExemptEditorNullChecks = true)
    (h2 : containsSub (str "/Editor/") ('/' :: path) = true) :
    checkStory cfg path text =
      (checkStory { cfg with ExemptEditorNullChecks := false } path text).filter
        Finding.isStoryShort := by
  unfold checkStory
  induction finditer matchStory text with
  | nil => rfl
  | cons pr t ih =>
    simp only [List.foldr_cons, List.filter_append, ih]
    rw [storyCandidate_exempt cfg path text pr.1 pr.2 h1 h2]

/-- The backward walk yields a line exactly when the unconditional walk stops
at that line and the case-sensitive acceptance test holds there. -/
theorem storyScanGo_iff (lines : List (List Char)) (ln : Nat) :
    ∀ f p, storyScanGo lines ln f = some p ↔
      (storyFirstStopGo lines ln f = some p ∧ storyAccept (lines.getD p []) = true) := by
  intro f
  induction f with
  | zero => intro p; simp [storyScanGo, storyFirstStopGo]
  | succ pp ih =>
    intro p
    simp only [storyScanGo, storyFirstStopGo]
    by_cases hb : ln - pp ≤ 6
    · simp only [hb, if_true]
      by_cases he : (lstrip (lines.getD pp [])).isEmpty = true
      · simp only [he, if_true]; exact ih p
      · simp only [he, Bool.false_eq_true, if_false]
        by_cases ha : startsWithL (str "[") (lstrip (lines.getD pp [])) = true
        · simp only [ha, if_true]; exact ih p
        · simp only [ha, Bool.false_eq_true, if_false]
          by_cases hs : (startsWithL (str "//") (lstrip (lines.getD pp [])) &&
              containsSub (str "Story:") (lstrip (lines.getD pp []))) = true
          · simp only [hs, if_true]
            constructor
            · intro h
              injection h with h
              subst h
              exact ⟨rfl, by unfold storyAccept; exact hs⟩
            · intro h
              exact h.1
          · simp only [hs, Bool.false_eq_true, if_false]
            constructor
            · intro h; cases h
            · intro h
              obtain ⟨h, hacc⟩ := h
              injection h with h
              subst h
              unfold storyAccept at hacc
              exact absurd hacc hs
    · simp [hb]

/-- Membership in the story rule's output comes from one candidate. -/
theorem checkStory_mem (cfg : Cfg) (path text : List Char) (f : Finding) :
    f ∈ checkStory cfg path text ↔
      ∃ pr, pr ∈ finditer matchStory text ∧ f ∈ storyCandidate cfg path text pr.1 pr.2 := by
  unfold checkStory
  exact mem_foldr_append
    (fun pr : Nat × List Char => storyCandidate cfg path text pr.1 pr.2) _ f

/-- A story candidate emits either the missing finding at the declaration line
(and then the backward scan failed) or a too-short finding at the successfully
scanned comment line. -/
theorem storyCandidate_shape (cfg : Cfg) (path text : List Char) (idx : Nat)
    (rem : List Char) (f : Finding) (h : f ∈ storyCandidate cfg path text idx rem) :
    (f = Finding.storyMissing path (countNL text idx + 1) (colOf text idx) ∧
       storyBackwardScan (splitlines text) (countNL text idx + 1) = none) ∨
    (∃ p, storyBackwardScan (splitlines text) (countNL text idx + 1) = some p ∧
       f = Finding.storyShort path (p + 1)) := by
  simp only [storyCandidate] at h
  split at h
  · simp at h
  · split at h
    · simp at h
    · split at h
      · rename_i heq
        split at h
        · simp at h
        · exact Or.inl ⟨by simpa using h, heq⟩
      · rename_i p heq
        split at h
        · split at h
          · exact Or.inr ⟨p, heq, by simpa using h⟩
          · simp at h
        · simp at h

/-- Claim C5 (amended): the backward scan accepts the first non-blank,
non-attribute line above iff that line is a single-line comment containing the
`Story:` marker matched case-sensitively; and every emitted
missing-documentation finding comes from a candidate whose backward scan found
nothing. -/
theorem c5_scan_case_sensitive :
    (∀ lines ln p, storyBackwardScan lines ln = some p ↔
       (storyFirstStop lines ln = some p ∧ storyAccept (lines.getD p []) = true)) ∧
    (∀ cfg path text ln col,
       Finding.storyMissing path ln col ∈ checkStory cfg path text →
       storyBackwardScan (splitlines text) ln = none) := by
  constructor
  · intro lines ln p
    exact storyScanGo_iff lines ln (ln - 1) p
  · intro cfg path text ln col h
    obtain ⟨pr, _, hc⟩ := (checkStory_mem cfg path text _).mp h
    rcases storyCandidate_shape cfg path text pr.1 pr.2 _ hc with ⟨heq, hnone⟩ | ⟨p, _, heq⟩
    · injection heq with hp hl hc2
      rw [hl]
      exact hnone
    · cases heq

/-- Every line number reported inside a window is in range, and its line
passed the emission test (which includes the absence of a marker). -/
theorem burstWinGo_snd_shape (lines : List (List Char)) :
    ∀ n j m, m ∈ (burstWinGo lines n j).2 →
      (j + 1 ≤ m ∧ m ≤ j + n) ∧ burstEmits (lines.getD (m - 1) []) = true := by
  intro n
  induction n with
  | zero => intro j m h; simp [burstWinGo] at h
  | succ k ih =>
    intro j m h
    simp only [burstWinGo] at h
    split at h
    · split at h
      · rename_i hcond
        simp only [List.mem_singleton] at h
        subst h
        exact ⟨⟨le_refl _, by omega⟩, by simpa using hcond⟩
      · simp at h
    · rcases List.mem_append.mp h with h1 | h2
      · split at h1
        · rename_i hcond
          simp only [List.mem_singleton] at h1
          subst h1
          exact ⟨⟨le_refl _, by omega⟩, by simpa using hcond⟩
        · simp at h1
      · obtain ⟨⟨hb1, hb2⟩, hemit⟩ := ih (j + 1) m h2
        exact ⟨⟨by omega, by omega⟩, hemit⟩

/-- If the window's body runs for line `j` and that line passes the emission
test, the window reports line `j + 1`. -/
theorem burstWinGo_emit (lines : List (List Char)) :
    ∀ n j0 j, j ∈ (burstWinGo lines n j0).1 →
      burstEmits (lines.getD j []) = true → (j + 1) ∈ (burstWinGo lines n j0).2 := by
  intro n
  induction n with
  | zero => intro j0 j h; simp [burstWinGo] at h
  | succ k ih =>
    intro j0 j h hem
    simp only [burstWinGo] at h ⊢
    split at h
    · rename_i hcl
      simp only [List.mem_singleton] at h
      subst h
      rw [if_pos hcl, hem]
      simp
    · rename_i hnc
      rcases List.mem_cons.mp h with h1 | h2
      · subst h1
        rw [if_neg hnc, hem]
        dsimp only
        simp
      · rw [if_neg hnc]
        dsimp only
        exact List.mem_append.mpr (Or.inr (ih (j0 + 1) j h2 hem))

/-- Membership in the attribute-proximity rule's output comes from one
trigger line's window. -/
theorem checkBurstRef_mem (path : List Char) (lines : List (List Char)) (f : Finding) :
    f ∈ checkBurstRef path lines ↔
      ∃ i, i ∈ List.range lines.length ∧
        f ∈ (if lineHasBurst (lines.getD i []) = true then
              (burstWinGo lines (min lines.length (i + 20) - (i + 1)) (i + 1)).2.map
                (fun ln => Finding.burstRef path ln)
            else []) := by
  unfold checkBurstRef
  exact mem_foldr_append _ _ f

/-- Claim C10: a window line that begins (after left-stripping) with a brace
or bracket is still checked before the window closes: when it carries an
unsuppressed, non-`SystemState` `'ref '` token, its finding is reported. -/
theorem c10_closing_line_still_flagged (path : List Char) (lines : List (List Char))
    (i j : Nat) (hi : i < lines.length)
    (ht : lineHasBurst (lines.getD i []) = true)
    (hj : j ∈ burstExamined lines i)
    (_hb : braceStart (lines.getD j []) = true)
    (hr : containsSub (str "ref ") (lines.getD j []) = true)
    (hm : hasMarker (lines.getD j []) = false)
    (hs : containsSub (str "ref SystemState") (lines.getD j []) = false) :
    Finding.burstRef path (j + 1) ∈ checkBurstRef path lines := by
  have hem : burstEmits (lines.getD j []) = true := by
    unfold burstEmits
    rw [hr, hm, hs]
    rfl
  have hwin : (j + 1) ∈
      (burstWinGo lines (min lines.length (i + 20) - (i + 1)) (i + 1)).2 :=
    burstWinGo_emit lines (min lines.length (i + 20) - (i + 1)) (i + 1) j hj hem
  refine (checkBurstRef_mem path lines _).mpr ⟨i, List.mem_range.mpr hi, ?_⟩
  rw [if_pos ht]
  exact List.mem_map.mpr ⟨j + 1, hwin, rfl⟩

/-- Claim C1 (amended): the suppression-marker invariant holds for the
null-literal, sentinel-reference and attribute-proximity rules — every finding
they emit sits on a marker-free line — while the NativeArray and
class-modifier rules perform no marker check at all (see the counterexample). -/
theorem c1_amended_suppression_scope :
    (∀ cfg path text ln col, Finding.nullF path ln col ∈ checkNulls cfg path text →
       hasMarker ((splitlines text).getD (ln - 1) []) = false) ∧
    (∀ cfg path text ln, Finding.entityNull path ln ∈ checkEntityNull cfg path text →
       hasMarker ((splitlines text).getD (ln - 1) []) = false) ∧
    (∀ path lines ln, Finding.burstRef path ln ∈ checkBurstRef path lines →
       hasMarker (lines.getD (ln - 1) []) = false) := by
  refine ⟨?_, ?_, ?_⟩
  · intro cfg path text ln col h
    unfold checkNulls at h
    split at h
    · split at h
      · simp at h
      · rw [List.mem_filterMap] at h
        obtain ⟨pr, hmem, heq⟩ := h
        simp only [] at heq
        split at heq
        · cases heq
        · rename_i hmk
          simp only [Bool.not_eq_true] at hmk
          injection heq with heq2
          injection heq2 with hp hl hc
          rw [← hl]
          exact hmk
    · simp at h
  · intro cfg path text ln h
    unfold checkEntityNull at h
    split at h
    · rw [List.mem_filterMap] at h
      obtain ⟨pr, hmem, heq⟩ := h
      simp only [] at heq
      split at heq
      · cases heq
      · rename_i hmk
        simp only [Bool.not_eq_true] at hmk
        injection heq with heq2
        injection heq2 with hp hl
        rw [← hl]
        exact hmk
    · simp at h
  · intro path lines ln h
    obtain ⟨i, hi, hin⟩ := (checkBurstRef_mem path lines _).mp h
    split at hin
    · obtain ⟨m, hm2, heq⟩ := List.mem_map.mp hin
      injection heq with hp hl
      obtain ⟨_, hemit⟩ := burstWinGo_snd_shape lines _ _ m hm2
      rw [← hl]
      unfold burstEmits at hemit
      simp only [Bool.and_eq_true, Bool.not_eq_true'] at hemit
      exact hemit.1.2
    · simp at hin

/-- A finditer pass over empty remaining text yields nothing. -/
theorem finditerGo_nil {α : Type} (m : Option Char → List Char → Option (Nat × α)) :
    ∀ fuel prev pos, finditerGo m fuel prev pos [] = [] := by
  intro fuel prev pos
  cases fuel <;> rfl

/-- Every reported match start lies inside the scanned region. -/
theorem finditerGo_start_lt {α : Type} (m : Option Char → List Char → Option (Nat × α)) :
    ∀ fuel prev pos rest p a, (p, a) ∈ finditerGo m fuel prev pos rest →
      p < pos + rest.length := by
  intro fuel
  induction fuel with
  | zero => intro prev pos rest p a h; simp [finditerGo] at h
  | succ k ih =>
    intro prev pos rest p a h
    match rest with
    | [] => simp [finditerGo] at h
    | c :: rest1 =>
      simp only [finditerGo] at h
      split at h
      · rename_i len a0 hm
        rcases List.mem_cons.mp h with h1 | h2
        · have : p = pos := congrArg Prod.fst h1
          simp only [List.length_cons]
          omega
        · rcases le_or_lt (max len 1) (rest1.length + 1) with hle | hgt
          · have hb := ih _ _ _ p a h2
            rw [List.length_drop] at hb
            simp only [List.length_cons] at hb ⊢
            omega
          · have hdrop : (c :: rest1).drop (max len 1) = [] := by
              apply List.drop_eq_nil_of_le
              simp only [List.length_cons]
              omega
            rw [hdrop, finditerGo_nil] at h2
            cases h2
      · have hb := ih _ _ _ p a h
        simp only [List.length_cons] at hb ⊢
        omega

/-- Every match start of `finditer` is below the text length. -/
theorem finditer_start_lt {α : Type} (m : Option Char → List Char → Option (Nat × α))
    (text : List Char) (p : Nat) (a : α) (h : (p, a) ∈ finditer m text) :
    p < text.length := by
  have := finditerGo_start_lt m text.length none 0 text p a h
  omega

/-- Core counting fact: for any offset inside the text, the number of
newlines before it is strictly below the number of `splitlines` lines. -/
theorem splitlinesAux_count_lt :
    ∀ N cs acc idx, cs.length ≤ N → idx < cs.length →
      ((cs.take idx).filter (fun c => c = '\n')).length < (splitlinesAux cs acc).length := by
  intro N
  induction N with
  | zero => intro cs acc idx h1 h2; omega
  | succ n ih =>
    intro cs acc idx h1 h2
    match cs with
    | [] => simp at h2
    | [c] =>
      have h0 : idx = 0 := by simp at h2; omega
      subst h0
      simp only [List.take_zero, List.filter_nil, List.length_nil, splitlinesAux]
      split <;> simp
    | c :: d :: cs2 =>
      simp only [List.length_cons] at h1 h2
      simp only [splitlinesAux]
      by_cases h3 : (c = '\r' && d = '\n') = true
      · rw [if_pos h3]
        simp only [Bool.and_eq_true, decide_eq_true_eq] at h3
        obtain ⟨hc, hd⟩ := h3
        subst hc hd
        match idx with
        | 0 => simp
        | 1 =>
          rw [show List.take 1 ('\r' :: '\n' :: cs2) = ['\r'] from rfl]
          rw [show List.filter (fun c => decide (c = '\n')) ['\r'] = [] from rfl]
          simp
        | Nat.succ (Nat.succ k) =>
          have hrec := ih cs2 ([] : List Char) k (by omega) (by omega)
          rw [List.take_succ_cons, List.take_succ_cons, List.filter_cons,
            List.filter_cons]
          rw [if_neg (by decide), if_pos (by decide)]
          simp only [List.length_cons]
          omega
      · rw [if_neg h3]
        by_cases h4 : isLineTerm c = true
        · rw [if_pos h4]
          match idx with
          | 0 => simp
          | Nat.succ k =>
            have hrec := ih (d :: cs2) ([] : List Char) k
              (by simp only [List.length_cons]; omega)
              (by simp only [List.length_cons]; omega)
            rw [List.take_succ_cons, List.filter_cons]
            by_cases hc : c = '\n'
            · rw [if_pos (by simp [hc])]
              simp only [List.length_cons]
              omega
            · rw [if_neg (by simp [hc])]
              simp only [List.length_cons]
              omega
        · rw [if_neg h4]
          have hcne : ¬ c = '\n' := by
            intro hcn
            subst hcn
            exact h4 (by decide)
          match idx with
          | 0 =>
            have hrec := ih (d :: cs2) (c :: acc) 0
              (by simp only [List.length_cons]; omega)
              (by simp)
            simpa using hrec
          | Nat.succ k =>
            have hrec := ih (d :: cs2) (c :: acc) k
              (by simp only [List.length_cons]; omega)
              (by simp only [List.length_cons]; omega)
            rw [List.take_succ_cons, List.filter_cons]
            rw [if_neg (by simp [hcne])]
            exact hrec

/-- For any offset inside the text, line number `countNL + 1` is a valid
1-based index into `splitlines text`. -/
theorem countNL_lt_numLines (text : List Char) (idx : Nat) (h : idx < text.length) :
    countNL text idx < (splitlines text).length := by
  unfold countNL splitlines
  exact splitlinesAux_count_lt text.length text [] idx (le_refl _) h

/-- The backward walk never returns a line at or beyond its starting fuel:
the accepted index is strictly below the initial `prev + 1`. -/
theorem storyScanGo_le (lines : List (List Char)) (ln : Nat) :
    ∀ f p, storyScanGo lines ln f = some p → p + 1 ≤ f := by
  intro f
  induction f with
  | zero => intro p h; cases h
  | succ pp ih =>
    intro p h
    simp only [storyScanGo] at h
    split at h
    · split at h
      · exact Nat.le_succ_of_le (ih p h)
      · split at h
        · exact Nat.le_succ_of_le (ih p h)
        · split at h
          · injection h with h
            omega
          · cases h
    · cases h

/-- Line validity of the NativeArray rule's findings. -/
theorem c9aux_nativeArray (cfg : Cfg) (path text : List Char) (f : Finding)
    (h : f ∈ checkNativeArray cfg path text) :
    ∃ n, f.lineOf = some n ∧ 1 ≤ n ∧ n ≤ (splitlines text).length := by
  unfold checkNativeArray at h
  split at h
  · obtain ⟨pr, hmem, heq⟩ := List.mem_map.mp h
    subst heq
    have hlt := countNL_lt_numLines text pr.1 (finditer_start_lt _ text pr.1 pr.2 hmem)
    exact ⟨countNL text pr.1 + 1, rfl, by omega, by omega⟩
  · cases h

/-- Line validity of the null-literal rule's findings. -/
theorem c9aux_nulls (cfg : Cfg) (path text : List Char) (f : Finding)
    (h : f ∈ checkNulls cfg path text) :
    ∃ n, f.lineOf = some n ∧ 1 ≤ n ∧ n ≤ (splitlines text).length := by
  unfold checkNulls at h
  split at h
  · split at h
    · cases h
    · obtain ⟨pr, hmem, heq⟩ := List.mem_filterMap.mp h
      simp only [] at heq
      split at heq
      · cases heq
      · injection heq with heq2
        subst heq2
        have hlt := countNL_lt_numLines text pr.1 (finditer_start_lt _ text pr.1 pr.2 hmem)
        exact ⟨countNL text pr.1 + 1, rfl, by omega, by omega⟩
  · cases h

/-- Line validity of the class-modifier rule's findings. -/
theorem c9aux_sealed (cfg : Cfg) (path text : List Char) (f : Finding)
    (h : f ∈ checkSealed cfg path text) :
    ∃ n, f.lineOf = some n ∧ 1 ≤ n ∧ n ≤ (splitlines text).length := by
  unfold checkSealed at h
  split at h
  · obtain ⟨pr, hmem, heq⟩ := List.mem_filterMap.mp h
    split at heq
    · injection heq with heq2
      subst heq2
      have hlt := countNL_lt_numLines text pr.1 (finditer_start_lt _ text pr.1 pr.2 hmem)
      exact ⟨countNL text pr.1 + 1, rfl, by omega, by omega⟩
    · cases heq
  · cases h

/-- Line validity of the Entity.Null rule's findings. -/
theorem c9aux_entityNull (cfg : Cfg) (path text : List Char) (f : Finding)
    (h : f ∈ checkEntityNull cfg path text) :
    ∃ n, f.lineOf = some n ∧ 1 ≤ n ∧ n ≤ (splitlines text).length := by
  unfold checkEntityNull at h
  split at h
  · obtain ⟨pr, hmem, heq⟩ := List.mem_filterMap.mp h
    simp only [] at heq
    split at heq
    · cases heq
    · injection heq with heq2
      subst heq2
      have hlt := countNL_lt_numLines text pr.1 (finditer_start_lt _ text pr.1 pr.2 hmem)
      exact ⟨countNL text pr.1 + 1, rfl, by omega, by omega⟩
  · cases h

/-- Line validity of the attribute-proximity rule's findings, against the line
list it scans. -/
theorem c9aux_burst (path : List Char) (lines : List (List Char)) (f : Finding)
    (h : f ∈ checkBurstRef path lines) :
    ∃ n, f.lineOf = some n ∧ 1 ≤ n ∧ n ≤ lines.length := by
  obtain ⟨i, hi, hin⟩ := (checkBurstRef_mem path lines _).mp h
  rw [List.mem_range] at hi
  split at hin
  · obtain ⟨m, hm2, heq⟩ := List.mem_map.mp hin
    subst heq
    obtain ⟨⟨hb1, hb2⟩, _⟩ := burstWinGo_snd_shape lines _ _ m hm2
    exact ⟨m, rfl, by omega, by omega⟩
  · cases hin

/-- Line validity of the story rule's findings. -/
theorem c9aux_story (cfg : Cfg) (path text : List Char) (f : Finding)
    (h : f ∈ checkStory cfg path text) :
    ∃ n, f.lineOf = some n ∧ 1 ≤ n ∧ n ≤ (splitlines text).length := by
  obtain ⟨pr, hmem, hc⟩ := (checkStory_mem cfg path text f).mp h
  have hlt := countNL_lt_numLines text pr.1 (finditer_start_lt _ text pr.1 pr.2 hmem)
  rcases storyCandidate_shape cfg path text pr.1 pr.2 f hc with ⟨heq, _⟩ | ⟨p, hsome, heq⟩
  · subst heq
    exact ⟨countNL text pr.1 + 1, rfl, by omega, by omega⟩
  · subst heq
    have hple := storyScanGo_le (splitlines text) (countNL text pr.1 + 1)
      (countNL text pr.1 + 1 - 1) p hsome
    exact ⟨p + 1, rfl, by omega, by omega⟩

/-- Claim C9: every finding a rule emits for a file carries a 1-based line
number that indexes into the file's `splitlines` sequence. -/
theorem c9_line_numbers_valid (cfg : Cfg) (path text : List Char) (f : Finding)
    (h : f ∈ scanFile cfg path text) :
    ∃ n, f.lineOf = some n ∧ 1 ≤ n ∧ n ≤ (splitlines text).length := by
  unfold scanFile at h
  simp only [List.mem_append] at h
  rcases h with (((h | h) | h) | h) | h
  · exact c9aux_nativeArray cfg path text f h
  · exact c9aux_nulls cfg path text f h
  · exact c9aux_sealed cfg path text f h
  · exact c9aux_entityNull cfg path text f h
  · split at h
    · rcases List.mem_append.mp h with h1 | h2
      · exact c9aux_burst path (splitlines text) f h1
      · split at h2
        · exact c9aux_story cfg path text f h2
        · cases h2
    · cases h

/-- Witness for C1: a concrete null-literal finding, whose containing line the
amended suppression theorem shows marker-free. -/
theorem c1_amended_suppression_scope_witness :
    hasMarker ((splitlines (str "x = null")).getD (1 - 1) []) = false :=
  c1_amended_suppression_scope.1 defaultCfg (str "A.cs") (str "x = null") 1 3 (by decide)

/-- Witness for C4: a concrete exempt editor path with a too-short story
comment, instantiating the exemption-scope theorem. -/
theorem c4_exempt_missing_only_witness :
    checkStory defaultCfg (str "Assets/Editor/S/F.cs")
      (str "// Story: short\npublic struct Foo : IComponentData") =
      (checkStory { defaultCfg with ExemptEditorNullChecks := false }
        (str "Assets/Editor/S/F.cs")
        (str "// Story: short\npublic struct Foo : IComponentData")).filter
        Finding.isStoryShort :=
  c4_exempt_missing_only defaultCfg (str "Assets/Editor/S/F.cs")
    (str "// Story: short\npublic struct Foo : IComponentData") rfl (by decide)

/-- Witness for C5: from a concrete emitted missing-documentation finding, the
amended theorem yields the failed backward scan. -/
theorem c5_scan_case_sensitive_witness :
    storyBackwardScan (splitlines (str "public struct W : ISystem")) 1 = none :=
  c5_scan_case_sensitive.2 defaultCfg (str "Assets/Code/W.cs")
    (str "public struct W : ISystem") 1 1 (by decide)

/-- Witness for C6: the amended interest characterisation instantiated at a
concrete candidate whose remainder carries a token. -/
theorem c6_amended_interest_witness :
    (∃ t, t ∈ interestingTokens ∧ containsSub t (str " : ISystem") = true) ∨
    (∃ k, 1 ≤ k ∧ k ≤ min (splitlines (str "public struct W : ISystem")).length (1 + 2) ∧
       ∃ t, t ∈ interestingTokens ∧
         containsSub t ((splitlines (str "public struct W : ISystem")).getD (k - 1) []) =
           true) :=
  (c6_amended_interest (splitlines (str "public struct W : ISystem")) 1
    (str " : ISystem")).mp (by decide)

/-- Witness for C9: a concrete NativeArray finding instantiating line
validity. -/
theorem c9_line_numbers_valid_witness :
    ∃ n, (Finding.nativeArray (str "A.cs") 1 1).lineOf = some n ∧ 1 ≤ n ∧
      n ≤ (splitlines (str "NativeArray<int> a;")).length :=
  c9_line_numbers_valid defaultCfg (str "A.cs") (str "NativeArray<int> a;")
    (Finding.nativeArray (str "A.cs") 1 1) (by decide)

/-- Witness for C10: a window whose very first line both starts with a brace
and carries an unsuppressed `ref`; its finding is reported. -/
theorem c10_closing_line_still_flagged_witness :
    Finding.burstRef (str "A.cs") 2 ∈
      checkBurstRef (str "A.cs") [str "[BurstCompile]", str "\x7b ref x;"] :=
  c10_closing_line_still_flagged (str "A.cs") [str "[BurstCompile]", str "\x7b ref x;"]
    0 1 (by decide) (by decide) (by decide) (by decide) (by decide) (by decide) (by decide)

end PaintDots
